import Mathlib

/-!
Verification of the neotype_prelude "Outcome" family: shallow Lean embeddings
of the `These`, `Either` and `Maybe` containers from the repository's source
(`src/these.ts`, the unnamed either module, `src/maybe.ts`), their comparison
and semigroup-combination operations, the generator-comprehension steppers
(`doImpl`, `Either.step`, `Maybe.go`, `AsyncMaybe.go`), and a state-machine
model of the concurrent traversal `AsyncMaybe.traverseIntoPar`.

Element-level equality, ordering and combination are caller-supplied
protocols in the source (`Eq`, `Ord`, `Semigroup`); the embeddings take the
corresponding element functions as explicit parameters.
-/

namespace NP

/-- The three-variant accumulating container from `src/these.ts`:
`These<A, B> = First<A> | Second<B> | Both<A, B>`. -/
inductive These (A B : Type) : Type where
  | first : A → These A B
  | second : B → These A B
  | both : A → B → These A B
deriving DecidableEq, Repr

/-- The two-variant container from the either module:
`Either<A, B> = Left<A> | Right<B>`. -/
inductive Either (A B : Type) : Type where
  | left : A → Either A B
  | right : B → Either A B
deriving DecidableEq, Repr

/-- The optional container from `src/maybe.ts`:
`Maybe<T> = Nothing | Just<T>`. -/
inductive Maybe (T : Type) : Type where
  | nothing : Maybe T
  | just : T → Maybe T
deriving DecidableEq, Repr

/-- Modelled from the spec: the `Ordering` semigroup of the ordering kernel
(`cmp.ts` is not under `src/`). Per the spec, `Paired` values compare
"lexicographically by `F` then `S`", so combining two orderings keeps the
first result unless it is `equal`, in which case the second decides. -/
def ordCmb (o1 o2 : Ordering) : Ordering :=
  match o1 with
  | .eq => o2
  | _ => o1

/-- `These.Syntax[Ord.cmp]` from `src/these.ts` (lines 99-116), with the
element comparators passed explicitly. -/
def These.cmp (cmpA : A → A → Ordering) (cmpB : B → B → Ordering) :
    These A B → These A B → Ordering
  | .first a, .first b => cmpA a b
  | .first _, .second _ => .lt
  | .first _, .both _ _ => .lt
  | .second x, .second y => cmpB x y
  | .second _, .first _ => .gt
  | .second _, .both _ _ => .lt
  | .both a x, .both b y => ordCmb (cmpA a b) (cmpB x y)
  | .both _ _, .first _ => .gt
  | .both _ _, .second _ => .gt

/-- `These.Syntax[Semigroup.cmb]` from `src/these.ts` (lines 134-165), with
the element combiners passed explicitly. -/
def These.cmb (cmbA : A → A → A) (cmbB : B → B → B) :
    These A B → These A B → These A B
  | .first a, .first b => .first (cmbA a b)
  | .first a, .second y => .both a y
  | .first a, .both b y => .both (cmbA a b) y
  | .second x, .first b => .both b x
  | .second x, .second y => .second (cmbB x y)
  | .second x, .both b y => .both b (cmbB x y)
  | .both a x, .first b => .both (cmbA a b) x
  | .both a x, .second y => .both a (cmbB x y)
  | .both a x, .both b y => .both (cmbA a b) (cmbB x y)

/-- `These.Syntax.mapFirst` from `src/these.ts` (lines 261-269): a `Second`
is returned unchanged, a `First` and the first slot of a `Both` are mapped. -/
def These.mapFirst (t : These A B) (f : A → C) : These C B :=
  match t with
  | .second x => .second x
  | .first a => .first (f a)
  | .both a x => .both (f a) x

/-- `These.Syntax.map` from `src/these.ts` (lines 274-282). -/
def These.map (t : These A B) (f : B → D) : These A D :=
  match t with
  | .first a => .first a
  | .second x => .second (f x)
  | .both a x => .both a (f x)

/-- `These.Syntax.flatMap` from `src/these.ts` (lines 189-200): `First`
short-circuits, `Second` applies `f`, and `Both` applies `f` to the second
slot and then `mapFirst`s the result with `cmb(this.fst, ·)`. -/
def These.flatMap (cmbA : A → A → A) (t : These A B) (f : B → These A C) :
    These A C :=
  match t with
  | .first a => .first a
  | .second x => f x
  | .both a x => (f x).mapFirst (fun y => cmbA a y)

end NP

namespace NP

/-- A suspendable step sequence: the shallow embedding of the generator
objects driven by the comprehension evaluators. `ret r` is normal completion
with result `r`; `act n g` performs an observable action (such as cleanup
code in a `finally` block) identified by `n` and continues as `g`; `yld y k h`
suspends yielding `y`, resuming as `k v` when `next(v)` is called and as
`h r` when `return(r)` is called (the `h` handler models the generator's
registered `finally` logic at that suspension point; a generator with no
cleanup has `h = fun r => ret r`). -/
inductive GenM (Y I R : Type) : Type where
  | ret : R → GenM Y I R
  | act : Nat → GenM Y I R → GenM Y I R
  | yld : Y → (I → GenM Y I R) → (R → GenM Y I R) → GenM Y I R

/-- The step sequence of a generator whose only registered cleanup is a
single observable action `c` run on early `return`, after which the passed
return value is propagated (the plain `try ... finally \x7b cleanup \x7d`
shape). -/
def cleanupGen (c : Nat) : R → GenM Y I R :=
  fun r => .act c (.ret r)

/-- `doImpl` from `src/these.ts` (lines 435-453), instrumented to also
collect the observable actions the generator performs. The accumulator
`acc` mirrors the local `e : E | undefined`. A `Second` yield resumes the
generator; a `Both` yield folds its first slot into `acc` and resumes; a
bare `First` yield stops and returns `first(cmb(e, t.value))` (or the
`First` itself when no first value accumulated) without invoking the
generator's return handler. -/
def doImplAux (cmbA : E → E → E) (g : GenM (These E V) V R) (acc : Option E) :
    These E R × List Nat :=
  match g with
  | .ret r =>
    (match acc with
     | some e => (.both e r, [])
     | none => (.second r, []))
  | .act n g1 =>
    let p := doImplAux cmbA g1 acc
    (p.1, n :: p.2)
  | .yld t k _h =>
    match t with
    | .second v => doImplAux cmbA (k v) acc
    | .both a v =>
      doImplAux cmbA (k v)
        (some (match acc with | some e => cmbA e a | none => a))
    | .first a =>
      (match acc with
       | some e => (.first (cmbA e a), [])
       | none => (.first a, []))

/-- `doThese` from `src/these.ts` (lines 458-462): run the generator through
`doImpl` with no accumulated first value. -/
def doThese (cmbA : E → E → E) (g : GenM (These E V) V R) : These E R × List Nat :=
  doImplAux cmbA g none

/-- The generator built by `reduceThese` from `src/these.ts` (lines 469-481):
`let acc = z; for x of xs \x7b acc = yield* f(acc, x) \x7d; return acc`. Each
`yield*` suspends on `f acc x`, resumes with the unwrapped second value, and
registers no cleanup. -/
def reduceGen (f : B → A → These E B) : List A → B → GenM (These E B) B B
  | [], acc => .ret acc
  | x :: xs, acc => .yld (f acc x) (fun v => reduceGen f xs v) (fun r => .ret r)

/-- `reduceThese` from `src/these.ts` (lines 469-481). -/
def reduceThese (cmbA : E → E → E) (xs : List A) (f : B → A → These E B)
    (z : B) : These E B :=
  (doThese cmbA (reduceGen f xs z)).1

/-- `Either.Syntax.flatMap` from the either module (lines 796-801): a `Left`
is returned as is, a `Right` applies `f` to its value. -/
def Either.flatMap (t : Either E T) (f : T → Either E T1) : Either E T1 :=
  match t with
  | .left e => .left e
  | .right v => f v

/-- Instrumentation of `Either.Syntax.flatMap` as a counting stub (the spec
asks that "f is never invoked" be verified via a counting stub): the second
component counts how many times `f` was applied. -/
def Either.flatMapCounted (t : Either E T) (f : T → Either E T1) :
    Either E T1 × Nat :=
  match t with
  | .left e => (.left e, 0)
  | .right v => (f v, 1)

/-- `Either.Syntax.map` from the either module (lines 853-855), defined as
in the source via `flatMap` and `right`. -/
def Either.map (t : Either A B) (f : B → B1) : Either A B1 :=
  t.flatMap (fun v => .right (f v))

/-- `Either.Syntax.zipWith` from the either module (lines 808-814), defined
as in the source via `flatMap` and `map`. -/
def Either.zipWith (t : Either E T) (u : Either E T1) (f : T → T1 → T2) :
    Either E T2 :=
  t.flatMap (fun lhs => u.map (fun rhs => f lhs rhs))

/-- `Either.Syntax[Semigroup.cmb]` from the either module (lines 748-753),
defined as in the source via `zipWith` over the element combiner. -/
def Either.cmb (cmbT : T → T → T) (t u : Either E T) : Either E T :=
  t.zipWith u cmbT

/-- `Either.Syntax[Ord.cmp]` from the either module (lines 734-742). -/
def Either.cmp (cmpA : A → A → Ordering) (cmpB : B → B → Ordering) :
    Either A B → Either A B → Ordering
  | .left a, .left b => cmpA a b
  | .left _, .right _ => .lt
  | .right x, .right y => cmpB x y
  | .right _, .left _ => .gt

/-- `Either.step` from the either module (lines 431-447), instrumented to
also collect the observable actions the generator performs. The generator's
return channel is `Option R`, where `none` stands for the private `halt`
sentinel passed by `gen.return(halt)`; a user generator completes normally
with `ret (some r)`. On a `Left` yield the stepper records the failure in
`err` and invokes the suspension's return handler with `halt`, which runs
any registered cleanup; the loop continues on whatever the handler yields.
On completion, a `halt` result produces `left(err)` and a normal result `r`
produces `right r`. -/
def Either.stepAux (g : GenM (Either E A) A (Option R)) (err : Option E) :
    Either (Option E) R × List Nat :=
  match g with
  | .ret none => (.left err, [])
  | .ret (some r) => (.right r, [])
  | .act n g1 =>
    let p := Either.stepAux g1 err
    (p.1, n :: p.2)
  | .yld t k h =>
    match t with
    | .right b => Either.stepAux (k b) err
    | .left a => Either.stepAux (h none) (some a)

/-- `Either.step` run from the start state (`err` unset). -/
def Either.step (g : GenM (Either E A) A (Option R)) :
    Either (Option E) R × List Nat :=
  Either.stepAux g none

/-- `Maybe.Syntax[Semigroup.cmb]` from `src/maybe.ts` (lines 739-747):
absent is the identity, two present values combine. -/
def Maybe.cmb (cmbT : T → T → T) : Maybe T → Maybe T → Maybe T
  | .just x, .just y => .just (cmbT x y)
  | .just x, .nothing => .just x
  | .nothing, that => that

/-- `Maybe.Syntax[Ord.cmp]` from `src/maybe.ts` (lines 725-732): absent
compares less than present. -/
def Maybe.cmp (cmpT : T → T → Ordering) : Maybe T → Maybe T → Ordering
  | .nothing, .nothing => .eq
  | .nothing, .just _ => .lt
  | .just _, .nothing => .gt
  | .just x, .just y => cmpT x y

/-- `Maybe.Syntax.andThen` from `src/maybe.ts` (lines 820-822). -/
def Maybe.andThen (m : Maybe T) (f : T → Maybe T1) : Maybe T1 :=
  match m with
  | .nothing => .nothing
  | .just v => f v

/-- `Maybe.Syntax.map` from `src/maybe.ts` (lines 886-888), defined as in
the source via `andThen` and `just`. -/
def Maybe.map (m : Maybe T) (f : T → T1) : Maybe T1 :=
  m.andThen (fun v => .just (f v))

/-- `Maybe.go` from `src/maybe.ts` (lines 465-478), instrumented to also
collect the observable actions the generator performs. The generator's
return channel is `Option R`, where `none` stands for the `undefined`
passed by `gen.return(undefined as any)`; a user generator completes
normally with `ret (some r)`. On a `Nothing` yield the stepper sets the
`isHalted` flag and invokes the suspension's return handler, which runs any
registered cleanup; the loop continues on whatever the handler yields. On
completion the result is `nothing` whenever the flag was set, and otherwise
`just` of the returned value. -/
def Maybe.goAux (g : GenM (Maybe V) V (Option R)) (isHalted : Bool) :
    Maybe (Option R) × List Nat :=
  match g with
  | .ret v => (if isHalted then .nothing else .just v, [])
  | .act n g1 =>
    let p := Maybe.goAux g1 isHalted
    (p.1, n :: p.2)
  | .yld m k h =>
    match m with
    | .just x => Maybe.goAux (k x) isHalted
    | .nothing => Maybe.goAux (h none) true

/-- `Maybe.go` run from the start state (`isHalted = false`). -/
def Maybe.go (g : GenM (Maybe V) V (Option R)) : Maybe (Option R) × List Nat :=
  Maybe.goAux g false

/-- The mutable state of the `AsyncMaybe.traverseIntoPar` executor from
`src/maybe.ts` (lines 1017-1041): the pending-completion counter
(`remaining` after the dispatch loop has registered every element), the
builder's accumulated state, and the promise's settlement (`none` while the
promise is pending; `resolve` has no effect once it is settled). -/
structure SimState (σ τ : Type) : Type where
  remaining : Nat
  acc : σ
  resolved : Option (Maybe τ)

/-- `resolve(r)`: settle the promise with `r` unless it is already settled. -/
def resolveOnce (s : SimState σ τ) (r : Maybe τ) : SimState σ τ :=
  match s.resolved with
  | some _ => s
  | none => { s with resolved := some r }

/-- The per-element completion callback of `AsyncMaybe.traverseIntoPar`
(lines 1027-1038): an absent `Maybe` resolves the promise with it
immediately; a present value is added to the builder, the pending counter
is decremented, and when it reaches zero the promise resolves with `just`
of the finished builder. -/
def runCallback (bAdd : σ → β → σ) (bFin : σ → τ) (m : Maybe β)
    (s : SimState σ τ) : SimState σ τ :=
  match m with
  | .nothing => resolveOnce s .nothing
  | .just v =>
    let s1 : SimState σ τ :=
      { s with acc := bAdd s.acc v, remaining := s.remaining - 1 }
    if s1.remaining == 0 then resolveOnce s1 (.just (bFin s1.acc)) else s1

/-- Pair each element of a list with its submission index, mirroring the
`idx = remaining; remaining++` bookkeeping of the dispatch loop. -/
def withIdx (xs : List α) (start : Nat) : List (α × Nat) :=
  match xs with
  | [] => []
  | x :: rest => (x, start) :: withIdx rest (start + 1)

/-- Positional lookup: the callback registered for completion index `i`, if
one was dispatched. -/
def nth : List α → Nat → Option α
  | [], _ => none
  | x :: _, 0 => some x
  | _ :: xs, n + 1 => nth xs n

/-- A model of `AsyncMaybe.traverseIntoPar` from `src/maybe.ts` (lines
1017-1041). The executor dispatches every per-element computation
immediately, so the eventual `Maybe` of element `i` is `f elem i`; the
host scheduler then runs the completion callbacks in an arbitrary
completion order, given here as the list of element indices `order`. The
result is the promise's settlement after those callbacks have run: `none`
means the promise is still pending (it never settles, since no further
callbacks exist). An index outside the dispatched range has no callback
and leaves the state unchanged. -/
def simTraverseIntoPar (elems : List α) (f : α → Nat → Maybe β) (bInit : σ)
    (bAdd : σ → β → σ) (bFin : σ → τ) (order : List Nat) : Option (Maybe τ) :=
  let results : List (Maybe β) := (withIdx elems 0).map (fun p => f p.1 p.2)
  let s0 : SimState σ τ := ⟨elems.length, bInit, none⟩
  (order.foldl
    (fun s i =>
      match nth results i with
      | some m => runCallback bAdd bFin m s
      | none => s)
    s0).resolved

/-- Modelled from the spec: the `finish` of the array-entry builder
(`builder.js` is not under `src/`), which is "keyed by original index
rather than completion order": the finished array holds, at each position,
the value that was added under that index. -/
def aebFinish (entries : List (Nat × β)) : List β :=
  (List.range entries.length).filterMap
    (fun i => (entries.find? (fun p => p.1 == i)).map (fun p => p.2))

/-- A model of `AsyncMaybe.traversePar` from `src/maybe.ts` (lines
1071-1081): `traverseIntoPar` where each success is paired with its
submission index and collected through the array-entry builder. -/
def simTraversePar (elems : List α) (f : α → Nat → Maybe β)
    (order : List Nat) : Option (Maybe (List β)) :=
  simTraverseIntoPar elems (fun a i => (f a i).map (fun v => (i, v)))
    ([] : List (Nat × β)) (fun s p => s ++ [p]) aebFinish order

/-- A model of `AsyncMaybe.allPar` (lines 1165-1169): `traversePar` over the
identity function. -/
def simAllPar (elems : List (Maybe β)) (order : List Nat) :
    Option (Maybe (List β)) :=
  simTraversePar elems (fun m _ => m) order

/-- A model of `AsyncMaybe.allPropsPar` (lines 1202-1206) over the entries
of the property record: `traverseIntoPar` through the keyed-entry builder
(modelled from the spec, `builder.js` not being under `src/`, as a builder
collecting key-value pairs). -/
def simAllPropsPar (props : List (String × Maybe β)) (order : List Nat) :
    Option (Maybe (List (String × β))) :=
  simTraverseIntoPar props (fun kv _ => (kv.2).map (fun v => (kv.1, v)))
    ([] : List (String × β)) (fun s p => s ++ [p]) (fun s => s) order

/-- A model of `AsyncMaybe.forEachPar` (lines 1212-1217): `traverseIntoPar`
through the no-op builder (modelled from the spec, `builder.js` not being
under `src/`, as a builder that discards additions and finishes with a unit
result). -/
def simForEachPar (elems : List α) (f : α → Nat → Maybe β)
    (order : List Nat) : Option (Maybe Unit) :=
  simTraverseIntoPar elems f () (fun _ _ => ()) (fun _ => ()) order

/-- The fold over completion indices is the identity when no callbacks were
dispatched (the results list is empty): no completion can ever run. -/
theorem foldl_nil_results (β σ τ : Type) (bAdd : σ → β → σ) (bFin : σ → τ)
    (order : List Nat) (s : SimState σ τ) :
    order.foldl
      (fun s i =>
        match nth ([] : List (Maybe β)) i with
        | some m => runCallback bAdd bFin m s
        | none => s)
      s = s := by
  induction order generalizing s with
  | nil => rfl
  | cons i rest ih => exact ih s

/-- Once `Maybe.go` has set the halted flag, the result is `nothing`
whatever the rest of the step sequence does. -/
theorem goAux_halted (g : GenM (Maybe V) V (Option R)) :
    (Maybe.goAux g true).1 = .nothing := by
  induction g with
  | ret v => rfl
  | act n g1 ih => exact ih
  | yld m k h ihk ihh =>
    cases m with
    | nothing => exact ihh none
    | just x => exact ihk x

end NP

namespace NP

/-- C1: on the accumulating family, `Paired(e, s).flatMap(f)` with
`f(s) = SecondOnly(s2)` is claimed to return `Paired(e, s2)`; the code
(`These.Syntax.flatMap` delegating to `mapFirst`, which returns a `Second`
unchanged) instead returns `SecondOnly(s2)`, dropping the first payload
`e` — the repository's own test for the accumulating family's `flatMap`
expects the `Paired` result. This theorem evaluates the embedded code at
the failing input. -/
theorem C1_both_flatMap_second_drops_first :
    These.flatMap String.append (.both "e" "s")
        (fun _ => (.second "s2" : These String String)) = .second "s2" ∧
    These.flatMap String.append (.both "e" "s")
        (fun _ => (.second "s2" : These String String)) ≠ .both "e" "s2" := by
  exact ⟨rfl, by decide⟩

/-- C2: a comprehension halted early by a bare failure yield is claimed to
run the generator's registered cleanup exactly once in every family's
synchronous stepper. `Either.step` and `Maybe.go` do run it exactly once
(they signal the generator through its return handler), but These's
`doImpl` returns without signalling, so the cleanup action never runs.
The third conjunct evaluates `doImpl` at the failing input. -/
theorem C2_cleanup_on_early_halt (E V R : Type) (e : E) (c : Nat)
    (cmbA : E → E → E)
    (k1 : V → GenM (Either E V) V (Option R))
    (k2 : V → GenM (Maybe V) V (Option R))
    (k3 : V → GenM (These E V) V R) :
    Either.step (GenM.yld (.left e) k1 (cleanupGen c)) = (.left (some e), [c]) ∧
    Maybe.go (GenM.yld .nothing k2 (cleanupGen c)) = (.nothing, [c]) ∧
    doThese cmbA (GenM.yld (.first e) k3 (cleanupGen c)) = (.first e, []) := by
  exact ⟨rfl, rfl, rfl⟩

/-- C3: reducing `["x", "y"]` over the accumulating family from the empty
accumulator with a reducer returning `paired(a, acc + x)` at each step
yields `paired(combine(a, a), "xy")`: `doImpl` folds the first payload of
each `Both` yield into the running accumulator with the element combiner,
resumes with the second payload, and at normal completion pairs the
accumulated first value with the returned accumulator. -/
theorem C3_reduceThese_scenario (E : Type) (cmbA : E → E → E) (a : E) :
    reduceThese cmbA ["x", "y"] (fun acc x => .both a (acc ++ x)) ""
      = .both (cmbA a a) "xy" := by
  rfl

/-- C4: the full 9-case truth table of the accumulating family's semigroup
combination (`These.Syntax[Semigroup.cmb]`). -/
theorem C4_these_cmb_table (A B : Type) (cmbA : A → A → A) (cmbB : B → B → B)
    (a b : A) (x y : B) :
    These.cmb cmbA cmbB (.first a) (.first b) = .first (cmbA a b) ∧
    These.cmb cmbA cmbB (.first a) (.second y) = .both a y ∧
    These.cmb cmbA cmbB (.first a) (.both b y) = .both (cmbA a b) y ∧
    These.cmb cmbA cmbB (.second x) (.first b) = .both b x ∧
    These.cmb cmbA cmbB (.second x) (.second y) = .second (cmbB x y) ∧
    These.cmb cmbA cmbB (.second x) (.both b y) = .both b (cmbB x y) ∧
    These.cmb cmbA cmbB (.both a x) (.first b) = .both (cmbA a b) x ∧
    These.cmb cmbA cmbB (.both a x) (.second y) = .both a (cmbB x y) ∧
    These.cmb cmbA cmbB (.both a x) (.both b y) = .both (cmbA a b) (cmbB x y) := by
  exact ⟨rfl, rfl, rfl, rfl, rfl, rfl, rfl, rfl, rfl⟩

/-- C5: comparison ranks `First < Second < Both` in the accumulating family
and `Left < Right` (resp. `Nothing < Just`) in the two-variant family when
the tags differ; equal tags delegate to the payload comparators, and two
`Both` values compare lexicographically by first payload then second. -/
theorem C5_cmp_order (A B T : Type) (cmpA : A → A → Ordering)
    (cmpB : B → B → Ordering) (cmpT : T → T → Ordering)
    (a b : A) (x y : B) (s t : T) :
    These.cmp cmpA cmpB (.first a) (.first b) = cmpA a b ∧
    These.cmp cmpA cmpB (.first a) (.second y) = .lt ∧
    These.cmp cmpA cmpB (.first a) (.both b y) = .lt ∧
    These.cmp cmpA cmpB (.second x) (.first b) = .gt ∧
    These.cmp cmpA cmpB (.second x) (.second y) = cmpB x y ∧
    These.cmp cmpA cmpB (.second x) (.both b y) = .lt ∧
    These.cmp cmpA cmpB (.both a x) (.first b) = .gt ∧
    These.cmp cmpA cmpB (.both a x) (.second y) = .gt ∧
    These.cmp cmpA cmpB (.both a x) (.both b y)
      = (match cmpA a b with | .eq => cmpB x y | o => o) ∧
    Either.cmp cmpA cmpB (.left a) (.left b) = cmpA a b ∧
    Either.cmp cmpA cmpB (.left a) (.right y) = .lt ∧
    Either.cmp cmpA cmpB (.right x) (.left b) = .gt ∧
    Either.cmp cmpA cmpB (.right x) (.right y) = cmpB x y ∧
    Maybe.cmp cmpT .nothing .nothing = .eq ∧
    Maybe.cmp cmpT .nothing (.just t) = .lt ∧
    Maybe.cmp cmpT (.just s) .nothing = .gt ∧
    Maybe.cmp cmpT (.just s) (.just t) = cmpT s t := by
  refine ⟨rfl, rfl, rfl, rfl, rfl, rfl, rfl, rfl, ?_,
    rfl, rfl, rfl, rfl, rfl, rfl, rfl, rfl⟩
  show ordCmb (cmpA a b) (cmpB x y) = _
  cases cmpA a b <;> rfl

/-- C6: assuming the element combiners are associative, the container-level
semigroup combination is associative for each combinable family: These with
semigroup payloads on both slots, Either with a semigroup success, and
Maybe with a semigroup value. -/
theorem C6_cmb_assoc (A B : Type) (cmbA : A → A → A) (cmbB : B → B → B)
    (hA : ∀ a b c, cmbA (cmbA a b) c = cmbA a (cmbA b c))
    (hB : ∀ x y z, cmbB (cmbB x y) z = cmbB x (cmbB y z)) :
    (∀ t u v : These A B,
      These.cmb cmbA cmbB (These.cmb cmbA cmbB t u) v
        = These.cmb cmbA cmbB t (These.cmb cmbA cmbB u v)) ∧
    (∀ t u v : Either A B,
      Either.cmb cmbB (Either.cmb cmbB t u) v
        = Either.cmb cmbB t (Either.cmb cmbB u v)) ∧
    (∀ t u v : Maybe B,
      Maybe.cmb cmbB (Maybe.cmb cmbB t u) v
        = Maybe.cmb cmbB t (Maybe.cmb cmbB u v)) := by
  refine ⟨?_, ?_, ?_⟩
  · intro t u v
    cases t <;> cases u <;> cases v <;> simp [These.cmb, hA, hB]
  · intro t u v
    cases t <;> cases u <;> cases v <;>
      simp [Either.cmb, Either.zipWith, Either.flatMap, Either.map, hB]
  · intro t u v
    cases t <;> cases u <;> cases v <;> simp [Maybe.cmb, hB]

/-- Witness for C6: the associativity hypotheses hold for addition on `Nat`,
and the theorem then settles a concrete These instance. -/
theorem C6_cmb_assoc_witness :
    (∀ a b c : Nat, (a + b) + c = a + (b + c)) ∧
    These.cmb (fun a b : Nat => a + b) (fun x y : Nat => x + y)
        (These.cmb (fun a b : Nat => a + b) (fun x y : Nat => x + y)
          (.both 1 2) (.first 3)) (.second 4)
      = These.cmb (fun a b : Nat => a + b) (fun x y : Nat => x + y)
          (.both 1 2)
          (These.cmb (fun a b : Nat => a + b) (fun x y : Nat => x + y)
            (.first 3) (.second 4)) :=
  ⟨fun a b c => Nat.add_assoc a b c,
    (C6_cmb_assoc Nat Nat (fun a b => a + b) (fun x y => x + y)
      (fun a b c => Nat.add_assoc a b c)
      (fun x y z => Nat.add_assoc x y z)).1 (.both 1 2) (.first 3) (.second 4)⟩

/-- C7: in the two-variant family, `Left(e).flatMap(f)` returns the failed
value unchanged for every `f`, and the counting stub records zero
invocations of `f`. -/
theorem C7_left_flatMap_short_circuit (E T T1 : Type) (e : E)
    (f : T → Either E T1) :
    Either.flatMap (.left e) f = .left e ∧
    Either.flatMapCounted (.left e) f = (.left e, 0) := by
  exact ⟨rfl, rfl⟩

/-- C8: for three concurrently traversed computations that all succeed, the
aggregate success is `[v0, v1, v2]` in original submission-index order for
every completion order of the three callbacks, because each success is
stored under its original index. -/
theorem C8_traversePar_index_order (β : Type) (v0 v1 v2 : β)
    (order : List Nat) (h : order.Perm [0, 1, 2]) :
    simTraversePar [v0, v1, v2] (fun v _ => .just v) order
      = some (.just [v0, v1, v2]) := by
  have hlen : order.length = 3 := h.length_eq
  match order, hlen, h with
  | [a, b, c], _, h =>
    have ha : a ∈ [0, 1, 2] := h.subset (by simp)
    have hb : b ∈ [0, 1, 2] := h.subset (by simp)
    have hc : c ∈ [0, 1, 2] := h.subset (by simp)
    fin_cases ha <;> fin_cases hb <;> fin_cases hc <;>
      first
        | rfl
        | exact absurd h (by decide)

/-- Witness for C8: completion order `[2, 0, 1]` is a permutation of the
submission order, and the aggregate preserves submission order. -/
theorem C8_traversePar_index_order_witness :
    List.Perm [2, 0, 1] [0, 1, 2] ∧
    simTraversePar [10, 20, 30] (fun v _ => Maybe.just v) [2, 0, 1]
      = some (.just [10, 20, 30]) :=
  ⟨by decide,
    C8_traversePar_index_order Nat 10 20 30 [2, 0, 1] (by decide)⟩

/-- C9: on the empty input, `traverseIntoPar` dispatches no callbacks and
the promise never settles (the model returns `none` — still pending — for
every possible completion schedule); the combinators built on it inherit
this. -/
theorem C9_empty_never_settles (α β σ τ : Type) (f : α → Nat → Maybe β)
    (bInit : σ) (bAdd : σ → β → σ) (bFin : σ → τ) (order : List Nat) :
    simTraverseIntoPar ([] : List α) f bInit bAdd bFin order = none ∧
    simTraversePar ([] : List α) f order = none ∧
    simAllPar ([] : List (Maybe β)) order = none ∧
    simAllPropsPar ([] : List (String × Maybe β)) order = none ∧
    simForEachPar ([] : List α) f order = none := by
  refine ⟨?_, ?_, ?_, ?_, ?_⟩
  · exact congrArg SimState.resolved
      (foldl_nil_results β σ τ bAdd bFin order ⟨0, bInit, none⟩)
  · exact congrArg SimState.resolved
      (foldl_nil_results (Nat × β) (List (Nat × β)) (List β)
        (fun s p => s ++ [p]) aebFinish order ⟨0, [], none⟩)
  · exact congrArg SimState.resolved
      (foldl_nil_results (Nat × β) (List (Nat × β)) (List β)
        (fun s p => s ++ [p]) aebFinish order ⟨0, [], none⟩)
  · exact congrArg SimState.resolved
      (foldl_nil_results (String × β) (List (String × β)) (List (String × β))
        (fun s p => s ++ [p]) (fun s => s) order ⟨0, [], none⟩)
  · exact congrArg SimState.resolved
      (foldl_nil_results β Unit Unit (fun _ _ => ()) (fun _ => ()) order
        ⟨0, (), none⟩)

/-- C10: once `Maybe.go` observes an absent yielded value it sets the
halted flag, and the final result is `Nothing` regardless of what the
generator's forced-return handler does afterwards — even if it performs
cleanup, yields further present values, or supplies a normal return
value. -/
theorem C10_go_halted_stays_nothing (V R : Type)
    (k : V → GenM (Maybe V) V (Option R))
    (h : Option R → GenM (Maybe V) V (Option R)) :
    (Maybe.go (GenM.yld .nothing k h)).1 = .nothing := by
  show (Maybe.goAux (h none) true).1 = .nothing
  exact goAux_halted (h none)

end NP
